import Mathlib

/-!
Shallow embedding of the Geocoin Carrier game core (src/main.ts).

Coordinates are modelled as rationals (`Rat`); `Math.floor` on a rational is
the mathematical floor `⌊·⌋`.  The deterministic random generator `luck`
(imported by the source from ./luck.ts, not part of the repository snapshot)
is an explicit function parameter `luck : String → Rat`; the spec states it is
pure and returns values in [0,1).  The JS `Map<string, Cache>` keyed by the
string `"i,j"` is modelled as an association list keyed by the integer pair
`(i, j)` (the key string is in bijection with the pair, since the decimal
rendering of an integer contains no comma); the string itself, as fed to
`luck`, is `posKey i j`.  JS number formatting inside template strings is
modelled by `toString` on `Rat`/`Int`.  Leaflet markers are modelled by the
marker's coordinate plus a `visible` flag (`map.hasLayer`); `distanceTo` is an
abstract parameter `dist`.  DOM/popup updates and `console.log` calls carry no
game state and are dropped; `localStorage` writes are modelled by the pure
`saveGameState` codec.
-/

/-- TILE_DEGREES constant (main.ts line 21): 1e-4 degrees. -/
def TILE_DEGREES : Rat := 1 / 10000

/-- NEIGHBORHOOD_SIZE constant (main.ts line 22). -/
def NEIGHBORHOOD_SIZE : Nat := 8

/-- CACHE_SPAWN_PROBABILITY constant (main.ts line 23). -/
def CACHE_SPAWN_PROBABILITY : Rat := 1 / 10

/-- OAKES_CLASSROOM starting coordinate (main.ts line 19). -/
def OAKES_CLASSROOM : Rat × Rat := (36.98949379578401, -122.06277128548504)

/-- Coin interface (main.ts lines 113-117): serial plus immutable origin. -/
structure Coin where
  serial : Int
  initialLat : Rat
  initialLng : Rat
  deriving DecidableEq, Repr

/-- UserCoin interface (main.ts lines 120-125): an inventory coin also carries
the "last handled at" display position `latLng`. -/
structure UserCoin where
  serial : Int
  latLng : Rat × Rat
  initialLat : Rat
  initialLng : Rat
  deriving DecidableEq, Repr

/-- Geocache (main.ts lines 190-199): mutable coin pool, the marker (modelled
by its coordinate and whether it is on the map), and `initialCoinCount`. -/
structure Geocache where
  coins : List Coin
  markerPos : Rat × Rat
  visible : Bool
  initialCoinCount : Int
  deriving DecidableEq, Repr

/-- Lookup in an association-list model of `Map<string, Cache>`; JS `Map.get`.
A JS map never holds a key twice, so `find first` is exact. -/
def mapGet {α : Type} (l : List ((Int × Int) × α)) (k : Int × Int) : Option α :=
  match l with
  | [] => none
  | kc :: rest => if kc.1 = k then some kc.2 else mapGet rest k

/-- JS `Map.set`: update the entry in place if the key is present (keeping its
position), otherwise append at the end (insertion order). -/
def mapSet {α : Type} (l : List ((Int × Int) × α)) (k : Int × Int) (v : α) :
    List ((Int × Int) × α) :=
  match l with
  | [] => [(k, v)]
  | kc :: rest => if kc.1 = k then (k, v) :: rest else kc :: mapSet rest k v

/-- The string key `"i,j"` built by template literals in main.ts (lines 142,
319, 396, 478, 511); this is the string fed to `luck` for the spawn check. -/
def posKey (i j : Int) : String := toString i ++ "," ++ toString j

/-- The salted key `[lat, lng, "initialValue"].toString()` (main.ts line 405)
fed to `luck` for the coin-count draw. -/
def saltedKey (lat lng : Rat) : String :=
  toString lat ++ "," ++ toString lng ++ ",initialValue"

/-- Cell.getCell (main.ts lines 139-149): the grid cell of a coordinate,
`(Math.floor(lat / TILE_DEGREES), Math.floor(lng / TILE_DEGREES))`.  The
flyweight interning cache affects object identity only, not the value. -/
def Cell.getCell (lat lng : Rat) : Int × Int :=
  (⌊lat / TILE_DEGREES⌋, ⌊lng / TILE_DEGREES⌋)

/-- The whole mutable game state: player marker position, the cache store
`caches` (main.ts line 128), the inventory `userCoins` (line 129), and the
status panel text. -/
structure GameState where
  playerPos : Rat × Rat
  caches : List ((Int × Int) × Geocache)
  userCoins : List UserCoin
  statusPanel : String
  deriving DecidableEq, Repr

/-- State at program start: empty cache store and inventory (main.ts lines
45-50, 128-129). -/
def initialState : GameState :=
  { playerPos := OAKES_CLASSROOM, caches := [], userCoins := [],
    statusPanel := "Player has no coins" }

/-- Body of the generateCaches double loop for one offset `(x, y)` (main.ts
lines 393-434): compute the cell of `center + (x, y)·tileDegrees`, skip if a
cache already exists there, otherwise draw `luck(positionKey)` and spawn iff
it is below CACHE_SPAWN_PROBABILITY, materialising
`num = Math.floor(luck(saltedKey) * 100) + 1` coins with serials `0..num-1`
and origin `(lat, lng)`.  New markers are not added to the map (visibility is
decided later by updateVisibleCaches), so `visible := false`. -/
def genStep (luck : String → Rat) (center : Rat × Rat) (tileDegrees : Rat)
    (s : GameState) (xy : Int × Int) : GameState :=
  let lat := center.1 + xy.1 * tileDegrees
  let lng := center.2 + xy.2 * tileDegrees
  let cell := Cell.getCell lat lng
  if (mapGet s.caches cell).isSome then s
  else if luck (posKey cell.1 cell.2) < CACHE_SPAWN_PROBABILITY then
    let num : Int := ⌊luck (saltedKey lat lng) * 100⌋ + 1
    let cache : Geocache :=
      { coins := (List.range num.toNat).map (fun (k : Nat) => ⟨(k : Int), lat, lng⟩),
        markerPos := (lat, lng), visible := false, initialCoinCount := num }
    { s with caches := mapSet s.caches cell cache }
  else s

/-- Ghost-instrumented variant of `genStep` that also records every string
passed to `luck`, in call order; the state component behaves exactly as the
source.  Note `luck(positionKey)` is drawn only when no cache exists for the
cell (main.ts lines 398-399). -/
def genStepTr (luck : String → Rat) (center : Rat × Rat) (tileDegrees : Rat)
    (st : GameState × List String) (xy : Int × Int) : GameState × List String :=
  let lat := center.1 + xy.1 * tileDegrees
  let lng := center.2 + xy.2 * tileDegrees
  let cell := Cell.getCell lat lng
  if (mapGet st.1.caches cell).isSome then st
  else if luck (posKey cell.1 cell.2) < CACHE_SPAWN_PROBABILITY then
    let num : Int := ⌊luck (saltedKey lat lng) * 100⌋ + 1
    let cache : Geocache :=
      { coins := (List.range num.toNat).map (fun (k : Nat) => ⟨(k : Int), lat, lng⟩),
        markerPos := (lat, lng), visible := false, initialCoinCount := num }
    ({ st.1 with caches := mapSet st.1.caches cell cache },
     st.2 ++ [posKey cell.1 cell.2, saltedKey lat lng])
  else (st.1, st.2 ++ [posKey cell.1 cell.2])

/-- Integer interval `[lo, hi]` as a list, in increasing order. -/
def intRange (lo hi : Int) : List Int :=
  (List.range (hi + 1 - lo).toNat).map (fun (k : Nat) => lo + (k : Int))

/-- Offsets visited by the generateCaches double loop (main.ts lines 391-392):
`x` outer and `y` inner, each from `-neighborhoodSize` to `neighborhoodSize`. -/
def offsets (n : Nat) : List (Int × Int) :=
  (intRange (-(n : Int)) n).flatMap
    (fun x => (intRange (-(n : Int)) n).map (fun y => (x, y)))

/-- generateCaches (main.ts lines 386-437). -/
def generateCaches (luck : String → Rat) (center : Rat × Rat)
    (neighborhoodSize : Nat) (tileDegrees : Rat) (s : GameState) : GameState :=
  (offsets neighborhoodSize).foldl (genStep luck center tileDegrees) s

/-- generateCaches with the ghost trace of `luck` draws. -/
def generateCachesTr (luck : String → Rat) (center : Rat × Rat)
    (neighborhoodSize : Nat) (tileDegrees : Rat) (s : GameState) :
    GameState × List String :=
  (offsets neighborhoodSize).foldl (genStepTr luck center tileDegrees) (s, [])

/-- addCoins, the collect operation (main.ts lines 477-508): if the cache for
cell `(cellI, cellJ)` exists and its pool is non-empty, pop the last coin of
the pool and push it onto `userCoins`, tagged with the handling position
`(lat, lng)`; origin fields are copied unchanged.  The source's
`cache.coins.length > 0` guard together with the `if (coin)` truthiness check
is exactly the `getLast?` match.  The `saveGameState()` call writes only to
localStorage and the popup-counter update touches only the DOM. -/
def addCoins (cellI cellJ : Int) (lat lng : Rat) (s : GameState) : GameState :=
  match mapGet s.caches (cellI, cellJ) with
  | none => s
  | some cache =>
    match cache.coins.getLast? with
    | none => s
    | some coin =>
      { s with
        caches := mapSet s.caches (cellI, cellJ)
          { cache with coins := cache.coins.dropLast },
        userCoins := s.userCoins ++
          [⟨coin.serial, (lat, lng), coin.initialLat, coin.initialLng⟩],
        statusPanel := "Collected coin (" ++ toString cellI ++ ", " ++
          toString cellJ ++ "): #" ++ toString coin.serial }

/-- depositCoin (main.ts lines 510-540): if the cache exists and the inventory
is non-empty, pop the last user coin and push it onto the cache's pool,
keeping serial and origin. -/
def depositCoin (cellI cellJ : Int) (lat lng : Rat) (s : GameState) : GameState :=
  match mapGet s.caches (cellI, cellJ) with
  | none => s
  | some cache =>
    match s.userCoins.getLast? with
    | none => s
    | some coin =>
      { s with
        caches := mapSet s.caches (cellI, cellJ)
          { cache with coins := cache.coins ++
              [⟨coin.serial, coin.initialLat, coin.initialLng⟩] },
        userCoins := s.userCoins.dropLast,
        statusPanel := "Deposited coin (" ++ toString cellI ++ ", " ++
          toString cellJ ++ "): #" ++ toString coin.serial }

/-- Show/hide decision of updateVisibleCaches for one cache (main.ts lines
367-377): the marker ends up on the map iff `distance <= radius`. -/
def setVisibility (dist : (Rat × Rat) → (Rat × Rat) → Rat) (center : Rat × Rat)
    (radius : Rat) (c : Geocache) : Geocache :=
  { c with visible := decide (dist center c.markerPos ≤ radius) }

/-- updateVisibleCaches (main.ts lines 365-379): a cache's marker is on the
map afterwards iff its distance from `center` is at most `radius`.  The
Leaflet `distanceTo` metric is the abstract parameter `dist`. -/
def updateVisibleCaches (dist : (Rat × Rat) → (Rat × Rat) → Rat)
    (center : Rat × Rat) (radius : Rat) (s : GameState) : GameState :=
  { s with caches := s.caches.map (fun kc =>
      (kc.1, setVisibility dist center radius kc.2)) }

/-- One cache's entry in the persisted snapshot (interface CacheState,
main.ts lines 99-102). -/
structure CacheState where
  coins : List Coin
  latLng : Rat × Rat
  deriving DecidableEq, Repr

/-- The JSON blob written to localStorage (main.ts lines 237-242).  Inventory
coins are saved as serial + origin only (the display `latLng` is dropped). -/
structure SaveBlob where
  playerPosition : Rat × Rat
  playerCoins : List Coin
  caches : List ((Int × Int) × CacheState)
  statusPanelContent : String
  deriving DecidableEq, Repr

/-- saveGameState (main.ts lines 218-246): snapshot player position, the
inventory (serial + origin per coin), and — for visible caches only
(`map.hasLayer`) — the coin pool and marker coordinate. -/
def saveGameState (s : GameState) : SaveBlob :=
  { playerPosition := s.playerPos,
    playerCoins := s.userCoins.map (fun u => ⟨u.serial, u.initialLat, u.initialLng⟩),
    caches := (s.caches.filter (fun kc => kc.2.visible)).map
      (fun kc => (kc.1, ⟨kc.2.coins, kc.2.markerPos⟩)),
    statusPanelContent := s.statusPanel }

/-- Rebuilding one cache from its snapshot entry on load (main.ts lines
272-291): `new Geocache(cacheState.coins, marker at cacheState.latLng)`; the
Geocache constructor (line 198) sets `initialCoinCount := coins.length`, and
the fresh marker is not yet on the map. -/
def geocacheOfState (cs : CacheState) : Geocache :=
  { coins := cs.coins, markerPos := cs.latLng, visible := false,
    initialCoinCount := (cs.coins.length : Int) }

/-- loadGameState (main.ts lines 248-304): no-op when no snapshot exists;
otherwise restore the player position, rebuild the inventory (recreating each
coin's `latLng` from its origin, line 263), clear the cache store and rebuild
it from the snapshot via `geocacheOfState`, then recompute visibility around
the restored player position with radius 40 (line 298).  The truthiness
guard on `statusPanelContent` keeps the old panel text when the saved text is
the empty string. -/
def loadGameState (dist : (Rat × Rat) → (Rat × Rat) → Rat)
    (saved : Option SaveBlob) (s : GameState) : GameState :=
  match saved with
  | none => s
  | some blob =>
    let restored : GameState :=
      { playerPos := blob.playerPosition,
        userCoins := blob.playerCoins.map
          (fun c => ⟨c.serial, (c.initialLat, c.initialLng), c.initialLat, c.initialLng⟩),
        caches := blob.caches.map (fun ks => (ks.1, geocacheOfState ks.2)),
        statusPanel := if blob.statusPanelContent = "" then s.statusPanel
                       else blob.statusPanelContent }
    updateVisibleCaches dist blob.playerPosition 40 restored

/-- Pool restoration of one cache on reset (main.ts lines 557-565):
`initialCoinCount` fresh coins with serials `0..initialCoinCount-1` and the
marker coordinate as origin (`Array.from` clamps a negative length to 0,
as `Int.toNat` does). -/
def resetCache (c : Geocache) : Geocache :=
  { c with coins := (List.range c.initialCoinCount.toNat).map (fun (idx : Nat) =>
      ⟨(idx : Int), c.markerPos.1, c.markerPos.2⟩) }

/-- Lower-casing of a JS string (`toLowerCase`), per character. -/
def strLower (s : String) : String := String.mk (s.data.map Char.toLower)

/-- resetGameState (main.ts lines 542-590): only acts when the prompt answer
lower-cases to "yes"; moves the player back to OAKES_CLASSROOM, restores
every cache's pool from its `initialCoinCount`, recomputes visibility around
the spawn point, and empties the inventory.  The movement-history polyline
and the localStorage rewrite carry no core state. -/
def resetGameState (dist : (Rat × Rat) → (Rat × Rat) → Rat)
    (confirmed : Option String) (s : GameState) : GameState :=
  if confirmed.map strLower = some "yes" then
    let s1 : GameState :=
      { s with playerPos := OAKES_CLASSROOM,
               caches := s.caches.map (fun kc => (kc.1, resetCache kc.2)) }
    let s2 := updateVisibleCaches dist OAKES_CLASSROOM 40 s1
    { s2 with userCoins := [], statusPanel := "Player has no coins" }
  else s

/-- A transfer-protocol operation: a click on "Collect Coin" or
"Deposit Coin" for the cache popup of cell `(cellI, cellJ)` at coordinate
`(lat, lng)` (main.ts lines 346-363). -/
inductive TransferOp where
  | collect (cellI cellJ : Int) (lat lng : Rat)
  | deposit (cellI cellJ : Int) (lat lng : Rat)
  deriving DecidableEq, Repr

/-- Effect of one transfer operation on the game state. -/
def applyOp (s : GameState) : TransferOp → GameState
  | .collect i j lat lng => addCoins i j lat lng s
  | .deposit i j lat lng => depositCoin i j lat lng s

/-- Effect of a sequence of transfer operations, first to last. -/
def applyOps (s : GameState) (ops : List TransferOp) : GameState :=
  ops.foldl applyOp s

/-- Total number of coins in the world: the coin pools of all caches in the
store plus the player's inventory. -/
def totalTokens (s : GameState) : Nat :=
  (s.caches.map (fun kc => kc.2.coins.length)).sum + s.userCoins.length

/-- The world-generation effect of a path of button moves (main.ts lines
59-74): each move places the player at `base + (a, b)·TILE_DEGREES` and runs
generateCaches there with the standard neighborhood and tile size. -/
def runMoves (luck : String → Rat) (base : Rat × Rat) (n : Nat)
    (moves : List (Int × Int)) (s : GameState) : GameState :=
  moves.foldl (fun st ab =>
    generateCaches luck
      (base.1 + ab.1 * TILE_DEGREES, base.2 + ab.2 * TILE_DEGREES)
      n TILE_DEGREES st) s

/-! ### Association-list map lemmas -/

/-- Setting then getting the same key yields the stored value. -/
theorem mapGet_mapSet_self {α : Type} (l : List ((Int × Int) × α)) (k : Int × Int)
    (v : α) : mapGet (mapSet l k v) k = some v := by
  induction l with
  | nil => simp [mapSet, mapGet]
  | cons kc rest ih =>
    by_cases h : kc.1 = k <;> simp [mapSet, mapGet, h, ih]

/-- Setting a key leaves every other key's binding unchanged. -/
theorem mapGet_mapSet_ne {α : Type} (l : List ((Int × Int) × α)) (k k' : Int × Int)
    (v : α) (h : k' ≠ k) : mapGet (mapSet l k v) k' = mapGet l k' := by
  have h1 : ¬(k = k') := fun hh => h hh.symm
  induction l with
  | nil => simp only [mapSet, mapGet, if_neg h1]
  | cons kc rest ih =>
    by_cases hk : kc.1 = k
    · have h2 : ¬(kc.1 = k') := by rw [hk]; exact h1
      simp only [mapSet, if_pos hk, mapGet, if_neg h1, if_neg h2]
    · simp only [mapSet, if_neg hk, mapGet, ih]

/-- Updating one present key moves the total coin count by the difference at
that key only. -/
theorem sum_coins_mapSet (l : List ((Int × Int) × Geocache)) (k : Int × Int)
    (c c' : Geocache) (h : mapGet l k = some c) :
    ((mapSet l k c').map (fun kc => kc.2.coins.length)).sum + c.coins.length
      = (l.map (fun kc => kc.2.coins.length)).sum + c'.coins.length := by
  induction l with
  | nil => simp [mapGet] at h
  | cons kc rest ih =>
    by_cases hk : kc.1 = k
    · simp only [mapGet, if_pos hk, Option.some.injEq] at h
      subst h
      simp [mapSet, hk]
      omega
    · simp only [mapGet, if_neg hk] at h
      have := ih h
      simp [mapSet, hk]
      omega

/-- Collect conserves the total token count. -/
theorem totalTokens_addCoins (i j : Int) (lat lng : Rat) (s : GameState) :
    totalTokens (addCoins i j lat lng s) = totalTokens s := by
  cases hget : mapGet s.caches (i, j) with
  | none => simp [addCoins, hget]
  | some cache =>
    cases hlast : cache.coins.getLast? with
    | none => simp [addCoins, hget, hlast]
    | some coin =>
      have hne : cache.coins ≠ [] := by
        intro hnil
        rw [hnil] at hlast
        simp at hlast
      have hpos : 0 < cache.coins.length := List.length_pos.mpr hne
      have hsum := sum_coins_mapSet s.caches (i, j) cache
        { cache with coins := cache.coins.dropLast } hget
      simp only [List.length_dropLast] at hsum
      simp [addCoins, hget, hlast, totalTokens]
      omega

/-- Deposit conserves the total token count. -/
theorem totalTokens_depositCoin (i j : Int) (lat lng : Rat) (s : GameState) :
    totalTokens (depositCoin i j lat lng s) = totalTokens s := by
  cases hget : mapGet s.caches (i, j) with
  | none => simp [depositCoin, hget]
  | some cache =>
    cases hlast : s.userCoins.getLast? with
    | none => simp [depositCoin, hget, hlast]
    | some coin =>
      have hne : s.userCoins ≠ [] := by
        intro hnil
        rw [hnil] at hlast
        simp at hlast
      have hpos : 0 < s.userCoins.length := List.length_pos.mpr hne
      have hsum := sum_coins_mapSet s.caches (i, j) cache
        { cache with coins := cache.coins ++ [⟨coin.serial, coin.initialLat, coin.initialLng⟩] } hget
      simp only [List.length_append, List.length_singleton] at hsum
      simp [depositCoin, hget, hlast, totalTokens]
      omega

/-- C1: For every game state (in particular every reachable one) and every
sequence of collect (addCoins) and deposit (depositCoin) operations, the sum
of the coin-pool sizes across all caches in the cache store plus the size of
the player's inventory is unchanged: no transfer operation creates or
destroys a token. -/
theorem collect_deposit_conservation (s : GameState) (ops : List TransferOp) :
    totalTokens (applyOps s ops) = totalTokens s := by
  induction ops generalizing s with
  | nil => rfl
  | cons op rest ih =>
    have hop : totalTokens (applyOp s op) = totalTokens s := by
      cases op with
      | collect i j lat lng => exact totalTokens_addCoins i j lat lng s
      | deposit i j lat lng => exact totalTokens_depositCoin i j lat lng s
    calc totalTokens (applyOps s (op :: rest))
        = totalTokens (applyOps (applyOp s op) rest) := rfl
      _ = totalTokens (applyOp s op) := ih (applyOp s op)
      _ = totalTokens s := hop

/-! ### C2/C3: transfer protocol -/

/-- C2: For every cache in the cache store: if its coin pool is non-empty,
collect (addCoins) removes exactly the last (most-recently-added) coin from
that cache's pool and appends to the inventory a coin with the same serial,
initialLat and initialLng (tagged with the handling position); if the pool is
empty, collect is a no-op that changes neither the cache's pool nor the
inventory. -/
theorem collect_pops_last (s : GameState) (cellI cellJ : Int) (lat lng : Rat)
    (cache : Geocache) (hc : mapGet s.caches (cellI, cellJ) = some cache) :
    (cache.coins = [] → addCoins cellI cellJ lat lng s = s)
    ∧ (∀ coin, cache.coins.getLast? = some coin →
        addCoins cellI cellJ lat lng s =
          { s with
            caches := mapSet s.caches (cellI, cellJ)
              ({ cache with coins := cache.coins.dropLast }),
            userCoins := s.userCoins ++
              [⟨coin.serial, (lat, lng), coin.initialLat, coin.initialLng⟩],
            statusPanel := "Collected coin (" ++ toString cellI ++ ", " ++
              toString cellJ ++ "): #" ++ toString coin.serial }) := by
  constructor
  · intro hnil
    simp [addCoins, hc, hnil]
  · intro coin hcoin
    simp [addCoins, hc, hcoin]

/-- Witness for C2 on a concrete two-coin cache: the second coin (serial 7)
is collected, the first stays, and a second collect after emptying would be
covered by the no-op branch. -/
theorem collect_pops_last_witness :
    addCoins 3 4 5 6
      { playerPos := (0, 0),
        caches := [((3, 4),
          { coins := [⟨0, 1, 2⟩, ⟨7, 1, 2⟩], markerPos := (1, 2),
            visible := true, initialCoinCount := 2 })],
        userCoins := [], statusPanel := "" } =
    { playerPos := (0, 0),
      caches := [((3, 4),
        { coins := [⟨0, 1, 2⟩], markerPos := (1, 2),
          visible := true, initialCoinCount := 2 })],
      userCoins := [⟨7, (5, 6), 1, 2⟩],
      statusPanel := "Collected coin (3, 4): #7" } := by
  refine ((collect_pops_last
    { playerPos := (0, 0),
      caches := [((3, 4),
        { coins := [⟨0, 1, 2⟩, ⟨7, 1, 2⟩], markerPos := (1, 2),
          visible := true, initialCoinCount := 2 })],
      userCoins := [], statusPanel := "" }
    3 4 5 6
    { coins := [⟨0, 1, 2⟩, ⟨7, 1, 2⟩], markerPos := (1, 2),
      visible := true, initialCoinCount := 2 }
    (by with_unfolding_all decide)).2
    ⟨7, 1, 2⟩ (by with_unfolding_all decide)).trans ?_
  with_unfolding_all decide

/-- C3: For every cache in the cache store: if the inventory is non-empty,
deposit (depositCoin) removes exactly the last (most-recently-collected) coin
from the inventory and appends it to that cache's pool with its serial,
initialLat and initialLng unchanged; if the inventory is empty, deposit is a
no-op that changes neither the inventory nor any cache pool. -/
theorem deposit_pops_last (s : GameState) (cellI cellJ : Int) (lat lng : Rat)
    (cache : Geocache) (hc : mapGet s.caches (cellI, cellJ) = some cache) :
    (s.userCoins = [] → depositCoin cellI cellJ lat lng s = s)
    ∧ (∀ coin, s.userCoins.getLast? = some coin →
        depositCoin cellI cellJ lat lng s =
          { s with
            caches := mapSet s.caches (cellI, cellJ)
              ({ cache with coins := cache.coins ++
                  [⟨coin.serial, coin.initialLat, coin.initialLng⟩] }),
            userCoins := s.userCoins.dropLast,
            statusPanel := "Deposited coin (" ++ toString cellI ++ ", " ++
              toString cellJ ++ "): #" ++ toString coin.serial }) := by
  constructor
  · intro hnil
    simp [depositCoin, hc, hnil]
  · intro coin hcoin
    simp [depositCoin, hc, hcoin]

/-- Witness for C3 on a concrete state: the most recently collected coin
(serial 9) moves from the inventory to the cache's pool, origin unchanged. -/
theorem deposit_pops_last_witness :
    depositCoin 3 4 5 6
      { playerPos := (0, 0),
        caches := [((3, 4),
          { coins := [⟨0, 1, 2⟩], markerPos := (1, 2),
            visible := true, initialCoinCount := 1 })],
        userCoins := [⟨2, (8, 8), 7, 7⟩, ⟨9, (8, 8), 4, 4⟩],
        statusPanel := "" } =
    { playerPos := (0, 0),
      caches := [((3, 4),
        { coins := [⟨0, 1, 2⟩, ⟨9, 4, 4⟩], markerPos := (1, 2),
          visible := true, initialCoinCount := 1 })],
      userCoins := [⟨2, (8, 8), 7, 7⟩],
      statusPanel := "Deposited coin (3, 4): #9" } := by
  refine ((deposit_pops_last
    { playerPos := (0, 0),
      caches := [((3, 4),
        { coins := [⟨0, 1, 2⟩], markerPos := (1, 2),
          visible := true, initialCoinCount := 1 })],
      userCoins := [⟨2, (8, 8), 7, 7⟩, ⟨9, (8, 8), 4, 4⟩],
      statusPanel := "" }
    3 4 5 6
    { coins := [⟨0, 1, 2⟩], markerPos := (1, 2),
      visible := true, initialCoinCount := 1 }
    (by with_unfolding_all decide)).2
    ⟨9, (8, 8), 4, 4⟩ (by with_unfolding_all decide)).trans ?_
  with_unfolding_all decide

/-! ### C9: grid index -/

/-- C9: For every latitude and longitude, Cell.getCell returns the cell
`(i, j)` with `i = ⌊lat/T⌋` and `j = ⌊lng/T⌋`, where each component is the
mathematical floor toward negative infinity (characterised by
`i ≤ lat/T < i + 1`, which rules out truncation on negative coordinates),
and calling it twice with the same coordinates yields identical `(i, j)`. -/
theorem getCell_floor_stable (lat lng : Rat) :
    Cell.getCell lat lng = (⌊lat / TILE_DEGREES⌋, ⌊lng / TILE_DEGREES⌋)
    ∧ (((Cell.getCell lat lng).1 : Rat) ≤ lat / TILE_DEGREES
        ∧ lat / TILE_DEGREES < (Cell.getCell lat lng).1 + 1)
    ∧ (((Cell.getCell lat lng).2 : Rat) ≤ lng / TILE_DEGREES
        ∧ lng / TILE_DEGREES < (Cell.getCell lat lng).2 + 1)
    ∧ Cell.getCell lat lng = Cell.getCell lat lng := by
  refine ⟨rfl, ⟨?_, ?_⟩, ⟨?_, ?_⟩, rfl⟩
  · exact Int.floor_le (lat / TILE_DEGREES)
  · exact Int.lt_floor_add_one (lat / TILE_DEGREES)
  · exact Int.floor_le (lng / TILE_DEGREES)
  · exact Int.lt_floor_add_one (lng / TILE_DEGREES)

/-! ### C4: spawn decision and coin materialisation -/

/-- C4: For a cell processed by generateCaches that has no cache yet, a cache
is created iff `luck(cellKey) < CACHE_SPAWN_PROBABILITY`; when created it
holds `n = ⌊luck(saltedKey) * 100⌋ + 1` coins — `1 ≤ n ≤ 100` whenever the
luck draw lies in `[0, 1)` — bearing serials `0..n-1` and origin equal to
the cache's anchor coordinate `(lat, lng)`. -/
theorem spawn_characterization (luck : String → Rat) (center : Rat × Rat)
    (tileDegrees : Rat) (s : GameState) (xy : Int × Int) (lat lng : Rat)
    (hlat : lat = center.1 + xy.1 * tileDegrees)
    (hlng : lng = center.2 + xy.2 * tileDegrees)
    (habsent : mapGet s.caches (Cell.getCell lat lng) = none)
    (h0 : 0 ≤ luck (saltedKey lat lng)) (h1 : luck (saltedKey lat lng) < 1) :
    (mapGet (genStep luck center tileDegrees s xy).caches (Cell.getCell lat lng)
      = if luck (posKey (Cell.getCell lat lng).1 (Cell.getCell lat lng).2)
            < CACHE_SPAWN_PROBABILITY
        then some
          { coins := (List.range (⌊luck (saltedKey lat lng) * 100⌋ + 1).toNat).map
              (fun (k : Nat) => ⟨(k : Int), lat, lng⟩),
            markerPos := (lat, lng), visible := false,
            initialCoinCount := ⌊luck (saltedKey lat lng) * 100⌋ + 1 }
        else none)
    ∧ 1 ≤ ⌊luck (saltedKey lat lng) * 100⌋ + 1
    ∧ ⌊luck (saltedKey lat lng) * 100⌋ + 1 ≤ 100 := by
  subst hlat hlng
  refine ⟨?_, ?_, ?_⟩
  · by_cases hl : luck (posKey
        (Cell.getCell (center.1 + xy.1 * tileDegrees) (center.2 + xy.2 * tileDegrees)).1
        (Cell.getCell (center.1 + xy.1 * tileDegrees) (center.2 + xy.2 * tileDegrees)).2)
        < CACHE_SPAWN_PROBABILITY
    · simp [genStep, habsent, hl, mapGet_mapSet_self]
    · simp [genStep, habsent, hl]
  · have : (0 : Int) ≤ ⌊luck (saltedKey (center.1 + xy.1 * tileDegrees)
        (center.2 + xy.2 * tileDegrees)) * 100⌋ :=
      Int.floor_nonneg.mpr (mul_nonneg h0 (by norm_num))
    omega
  · have : ⌊luck (saltedKey (center.1 + xy.1 * tileDegrees)
        (center.2 + xy.2 * tileDegrees)) * 100⌋ < (100 : Int) := by
      rw [Int.floor_lt]
      push_cast
      nlinarith
    omega

/-- Deterministic luck used by the C4 witness: `luck("0,0") = 0.05` and the
salted count draw returns 0.3. -/
def c4Luck : String → Rat := fun key => if key = "0,0" then 1 / 20 else 3 / 10

/-- Witness for C4, realising the spec scenario: spawn probability 0.1,
cell (0,0), `luck("0,0") = 0.05 < 0.1` spawns a cache, and the count draw 0.3
yields `⌊0.3·100⌋ + 1 = 31` coins. -/
theorem spawn_characterization_witness :
    (mapGet (genStep c4Luck (0, 0) TILE_DEGREES initialState (0, 0)).caches
        (Cell.getCell 0 0)).map (fun c => c.coins.length) = some 31 := by
  have h := (spawn_characterization c4Luck (0, 0) TILE_DEGREES initialState (0, 0) 0 0
    (by with_unfolding_all decide) (by with_unfolding_all decide)
    (by with_unfolding_all decide) (by with_unfolding_all decide)
    (by with_unfolding_all decide)).1
  rw [h]
  with_unfolding_all decide

/-! ### C5: idempotence of generateCaches -/

/-- A cell offset is settled in a state when its cache already exists or its
spawn draw fails; a settled cell can never change again. -/
def settled (luck : String → Rat) (center : Rat × Rat) (tileDegrees : Rat)
    (s : GameState) (xy : Int × Int) : Prop :=
  (mapGet s.caches (Cell.getCell (center.1 + xy.1 * tileDegrees)
      (center.2 + xy.2 * tileDegrees))).isSome = true
  ∨ ¬ luck (posKey
      (Cell.getCell (center.1 + xy.1 * tileDegrees) (center.2 + xy.2 * tileDegrees)).1
      (Cell.getCell (center.1 + xy.1 * tileDegrees) (center.2 + xy.2 * tileDegrees)).2)
      < CACHE_SPAWN_PROBABILITY

/-- A settled cell makes the generation step a no-op. -/
theorem genStep_of_settled (luck : String → Rat) (center : Rat × Rat)
    (tileDegrees : Rat) (s : GameState) (xy : Int × Int)
    (h : settled luck center tileDegrees s xy) :
    genStep luck center tileDegrees s xy = s := by
  by_cases hpres : (mapGet s.caches (Cell.getCell (center.1 + xy.1 * tileDegrees)
      (center.2 + xy.2 * tileDegrees))).isSome = true
  · simp [genStep, hpres]
  · rcases h with h | h
    · exact absurd h hpres
    · simp [genStep, hpres, h]

/-- The generation step settles its own cell. -/
theorem genStep_settles (luck : String → Rat) (center : Rat × Rat)
    (tileDegrees : Rat) (s : GameState) (xy : Int × Int) :
    settled luck center tileDegrees (genStep luck center tileDegrees s xy) xy := by
  by_cases hpres : (mapGet s.caches (Cell.getCell (center.1 + xy.1 * tileDegrees)
      (center.2 + xy.2 * tileDegrees))).isSome = true
  · left
    simpa [genStep, hpres] using hpres
  · by_cases hl : luck (posKey
        (Cell.getCell (center.1 + xy.1 * tileDegrees) (center.2 + xy.2 * tileDegrees)).1
        (Cell.getCell (center.1 + xy.1 * tileDegrees) (center.2 + xy.2 * tileDegrees)).2)
        < CACHE_SPAWN_PROBABILITY
    · left
      simp [genStep, hpres, hl, mapGet_mapSet_self]
    · right
      exact hl

/-- The generation step never removes a cache, so settledness is stable. -/
theorem genStep_preserves_settled (luck : String → Rat) (center : Rat × Rat)
    (tileDegrees : Rat) (s : GameState) (xy xy' : Int × Int)
    (h : settled luck center tileDegrees s xy') :
    settled luck center tileDegrees (genStep luck center tileDegrees s xy) xy' := by
  rcases h with h | h
  · left
    by_cases hpres : (mapGet s.caches (Cell.getCell (center.1 + xy.1 * tileDegrees)
        (center.2 + xy.2 * tileDegrees))).isSome = true
    · simpa [genStep, hpres] using h
    · by_cases hl : luck (posKey
          (Cell.getCell (center.1 + xy.1 * tileDegrees) (center.2 + xy.2 * tileDegrees)).1
          (Cell.getCell (center.1 + xy.1 * tileDegrees) (center.2 + xy.2 * tileDegrees)).2)
          < CACHE_SPAWN_PROBABILITY
      · simp only [genStep, hpres, hl]
        by_cases hk : (Cell.getCell (center.1 + xy'.1 * tileDegrees)
            (center.2 + xy'.2 * tileDegrees)) = (Cell.getCell (center.1 + xy.1 * tileDegrees)
            (center.2 + xy.2 * tileDegrees))
        · simp [hk, mapGet_mapSet_self]
        · simp [mapGet_mapSet_ne _ _ _ _ hk]
          simpa using h
      · simpa [genStep, hpres, hl] using h
  · right
    exact h

/-- Folding the generation step preserves settledness of any cell. -/
theorem foldl_genStep_preserves_settled (luck : String → Rat) (center : Rat × Rat)
    (tileDegrees : Rat) (l : List (Int × Int)) (t : GameState) (xy' : Int × Int)
    (h : settled luck center tileDegrees t xy') :
    settled luck center tileDegrees
      (l.foldl (genStep luck center tileDegrees) t) xy' := by
  induction l generalizing t with
  | nil => exact h
  | cons b rb ih =>
    exact ih _ (genStep_preserves_settled luck center tileDegrees t b xy' h)

/-- After folding the generation step over a list of offsets from any start
state, every offset in the list is settled. -/
theorem foldl_genStep_settles (luck : String → Rat) (center : Rat × Rat)
    (tileDegrees : Rat) (l : List (Int × Int)) (s : GameState) :
    ∀ xy ∈ l, settled luck center tileDegrees
      (l.foldl (genStep luck center tileDegrees) s) xy := by
  induction l generalizing s with
  | nil => intro xy h; simp at h
  | cons a rest ih =>
    intro xy hxy
    rcases List.mem_cons.mp hxy with rfl | hxy
    · have h0 : settled luck center tileDegrees
          (genStep luck center tileDegrees s xy) xy :=
        genStep_settles luck center tileDegrees s xy
      simpa using foldl_genStep_preserves_settled luck center tileDegrees rest
        (genStep luck center tileDegrees s xy) xy h0
    · simpa using ih (genStep luck center tileDegrees s a) xy hxy

/-- Folding the generation step over settled offsets changes nothing. -/
theorem foldl_genStep_of_settled (luck : String → Rat) (center : Rat × Rat)
    (tileDegrees : Rat) (l : List (Int × Int)) (t : GameState)
    (h : ∀ xy ∈ l, settled luck center tileDegrees t xy) :
    l.foldl (genStep luck center tileDegrees) t = t := by
  induction l with
  | nil => rfl
  | cons a rest ih =>
    have ha : genStep luck center tileDegrees t a = t :=
      genStep_of_settled luck center tileDegrees t a (h a (List.mem_cons_self a rest))
    simp only [List.foldl_cons, ha]
    exact ih (fun xy hxy => h xy (List.mem_cons_of_mem a hxy))

/-- Folding the instrumented step over settled offsets keeps the state, and
every new trace entry is a spawn-check on a cell with no cache. -/
theorem foldl_genStepTr_of_settled (luck : String → Rat) (center : Rat × Rat)
    (tileDegrees : Rat) (l : List (Int × Int)) (t : GameState) (tr : List String)
    (h : ∀ xy ∈ l, settled luck center tileDegrees t xy) :
    (l.foldl (genStepTr luck center tileDegrees) (t, tr)).1 = t
    ∧ ∀ key ∈ (l.foldl (genStepTr luck center tileDegrees) (t, tr)).2,
        key ∈ tr ∨ ∃ i j, key = posKey i j ∧ mapGet t.caches (i, j) = none := by
  induction l generalizing tr with
  | nil => exact ⟨rfl, fun key hkey => Or.inl hkey⟩
  | cons a rest ih =>
    have ha := h a (List.mem_cons_self a rest)
    have hrest : ∀ xy ∈ rest, settled luck center tileDegrees t xy :=
      fun xy hxy => h xy (List.mem_cons_of_mem a hxy)
    by_cases hpres : (mapGet t.caches (Cell.getCell (center.1 + a.1 * tileDegrees)
        (center.2 + a.2 * tileDegrees))).isSome = true
    · have hstep : genStepTr luck center tileDegrees (t, tr) a = (t, tr) := by
        simp [genStepTr, hpres]
      simp only [List.foldl_cons, hstep]
      exact ih tr hrest
    · rcases ha with ha | ha
      · exact absurd ha hpres
      · have hstep : genStepTr luck center tileDegrees (t, tr) a =
            (t, tr ++ [posKey
              (Cell.getCell (center.1 + a.1 * tileDegrees) (center.2 + a.2 * tileDegrees)).1
              (Cell.getCell (center.1 + a.1 * tileDegrees) (center.2 + a.2 * tileDegrees)).2]) := by
          simp [genStepTr, hpres, ha]
        simp only [List.foldl_cons, hstep]
        obtain ⟨h1, h2⟩ := ih (tr ++ [posKey
          (Cell.getCell (center.1 + a.1 * tileDegrees) (center.2 + a.2 * tileDegrees)).1
          (Cell.getCell (center.1 + a.1 * tileDegrees) (center.2 + a.2 * tileDegrees)).2]) hrest
        refine ⟨h1, ?_⟩
        intro key hkey
        rcases h2 key hkey with hk | hk
        · rcases List.mem_append.mp hk with hk | hk
          · exact Or.inl hk
          · right
            refine ⟨_, _, List.mem_singleton.mp hk, ?_⟩
            exact Option.not_isSome_iff_eq_none.mp (by simpa using hpres)
        · exact Or.inr hk

/-- C5: Calling generateCaches a second time with the same center,
neighborhood size and tile size leaves the cache store exactly as after the
first call (no duplication, no re-rolled pools), and every `luck` draw taken
by the second call is a spawn check for a cell that has no cache. -/
theorem generateCaches_idempotent (luck : String → Rat) (center : Rat × Rat)
    (n : Nat) (tileDegrees : Rat) (s : GameState) :
    generateCaches luck center n tileDegrees
        (generateCaches luck center n tileDegrees s)
      = generateCaches luck center n tileDegrees s
    ∧ ∀ key ∈ (generateCachesTr luck center n tileDegrees
        (generateCaches luck center n tileDegrees s)).2,
        ∃ i j, key = posKey i j ∧
          mapGet (generateCaches luck center n tileDegrees s).caches (i, j) = none := by
  have hsettled : ∀ xy ∈ offsets n, settled luck center tileDegrees
      (generateCaches luck center n tileDegrees s) xy :=
    foldl_genStep_settles luck center tileDegrees (offsets n) s
  constructor
  · exact foldl_genStep_of_settled luck center tileDegrees (offsets n) _ hsettled
  · intro key hkey
    have := (foldl_genStepTr_of_settled luck center tileDegrees (offsets n)
      (generateCaches luck center n tileDegrees s) [] hsettled).2 key hkey
    rcases this with h | h
    · simp at h
    · exact h

/-- Luck function for the C5 witness: never below the spawn threshold, so the
first call creates nothing and the second call re-checks the empty cell. -/
def c5Luck : String → Rat := fun _ => 1

/-- Witness for C5: with a one-cell neighborhood at the origin, the key
`"0,0"` drawn by the second call belongs to a cell with no cache. -/
theorem generateCaches_idempotent_witness :
    ∃ i j, "0,0" = posKey i j ∧
      mapGet (generateCaches c5Luck (0, 0) 0 TILE_DEGREES initialState).caches (i, j)
        = none :=
  (generateCaches_idempotent c5Luck (0, 0) 0 TILE_DEGREES initialState).2
    "0,0" (by with_unfolding_all decide)

/-! ### C6, C7, C10: persistence codec and reset -/

/-- Mapping a value transformation over a store commutes with lookup. -/
theorem mapGet_mapVal {α β : Type} (l : List ((Int × Int) × α)) (f : α → β)
    (k : Int × Int) :
    mapGet (l.map (fun kc => (kc.1, f kc.2))) k = (mapGet l k).map f := by
  induction l with
  | nil => rfl
  | cons kc rest ih =>
    by_cases h : kc.1 = k <;> simp [mapGet, h, ih]

/-- Looking up a visible entry commutes with the filter-and-project step used
by the persistence codec. -/
theorem mapGet_filter_visible (l : List ((Int × Int) × Geocache)) (k : Int × Int)
    (c : Geocache) (hc : mapGet l k = some c) (hv : c.visible = true) :
    mapGet ((l.filter (fun kc => kc.2.visible)).map
        (fun kc => (kc.1, (⟨kc.2.coins, kc.2.markerPos⟩ : CacheState)))) k
      = some ⟨c.coins, c.markerPos⟩ := by
  induction l with
  | nil => simp [mapGet] at hc
  | cons kc rest ih =>
    by_cases hk : kc.1 = k
    · simp only [mapGet, if_pos hk, Option.some.injEq] at hc
      subst hc
      simp [List.filter_cons, hv, mapGet, hk]
    · simp only [mapGet, if_neg hk] at hc
      by_cases hvkc : kc.2.visible = true
      · simpa [List.filter_cons, hvkc, mapGet, hk] using ih hc
      · simpa [List.filter_cons, hvkc] using ih hc

/-- A visible cache's pool and marker coordinate survive into the snapshot. -/
theorem mapGet_save_of_visible (s : GameState) (k : Int × Int) (c : Geocache)
    (hc : mapGet s.caches k = some c) (hv : c.visible = true) :
    mapGet (saveGameState s).caches k = some ⟨c.coins, c.markerPos⟩ := by
  simpa [saveGameState] using mapGet_filter_visible s.caches k c hc hv

/-- Full characterisation of a visible cache's image under save-then-load:
pool and marker survive, visibility is recomputed, and `initialCoinCount` is
re-derived from the restored pool by the Geocache constructor. -/
theorem mapGet_load_save (dist : (Rat × Rat) → (Rat × Rat) → Rat)
    (s : GameState) (k : Int × Int) (c : Geocache)
    (hc : mapGet s.caches k = some c) (hv : c.visible = true) :
    mapGet (loadGameState dist (some (saveGameState s)) s).caches k =
      some (setVisibility dist s.playerPos 40
        (geocacheOfState ⟨c.coins, c.markerPos⟩)) := by
  have h1 := mapGet_save_of_visible s k c hc hv
  simp only [loadGameState, updateVisibleCaches]
  rw [mapGet_mapVal, mapGet_mapVal, h1]
  rfl

/-- C6: loadGameState applied to the blob written by saveGameState
reproduces, for every cache visible at save time, the same coin pool (same
serials and origins in the same order), and reproduces the player's
inventory with the same serials and origins as before the save. -/
theorem save_load_roundtrip (dist : (Rat × Rat) → (Rat × Rat) → Rat)
    (s : GameState) (k : Int × Int) (c : Geocache)
    (hc : mapGet s.caches k = some c) (hv : c.visible = true) :
    (∃ c', mapGet (loadGameState dist (some (saveGameState s)) s).caches k = some c'
        ∧ c'.coins = c.coins)
    ∧ (loadGameState dist (some (saveGameState s)) s).userCoins.map
        (fun u => (u.serial, u.initialLat, u.initialLng))
      = s.userCoins.map (fun u => (u.serial, u.initialLat, u.initialLng)) := by
  refine ⟨⟨_, mapGet_load_save dist s k c hc hv, rfl⟩, ?_⟩
  simp [loadGameState, updateVisibleCaches, saveGameState, List.map_map]

/-- Witness for C6 on a concrete one-cache state holding coin serial 5 and an
inventory with one collected coin. -/
theorem save_load_roundtrip_witness :
    (∃ c', mapGet (loadGameState (fun _ _ => 0)
        (some (saveGameState
          { playerPos := (0, 0),
            caches := [((2, 3),
              { coins := [⟨5, 1, 2⟩], markerPos := (1, 2),
                visible := true, initialCoinCount := 1 })],
            userCoins := [⟨4, (9, 9), 6, 6⟩], statusPanel := "x" }))
        { playerPos := (0, 0),
          caches := [((2, 3),
            { coins := [⟨5, 1, 2⟩], markerPos := (1, 2),
              visible := true, initialCoinCount := 1 })],
          userCoins := [⟨4, (9, 9), 6, 6⟩], statusPanel := "x" }).caches (2, 3)
        = some c' ∧ c'.coins = [⟨5, 1, 2⟩])
    ∧ (loadGameState (fun _ _ => 0)
        (some (saveGameState
          { playerPos := (0, 0),
            caches := [((2, 3),
              { coins := [⟨5, 1, 2⟩], markerPos := (1, 2),
                visible := true, initialCoinCount := 1 })],
            userCoins := [⟨4, (9, 9), 6, 6⟩], statusPanel := "x" }))
        { playerPos := (0, 0),
          caches := [((2, 3),
            { coins := [⟨5, 1, 2⟩], markerPos := (1, 2),
              visible := true, initialCoinCount := 1 })],
          userCoins := [⟨4, (9, 9), 6, 6⟩], statusPanel := "x" }).userCoins.map
        (fun u => (u.serial, u.initialLat, u.initialLng))
      = [⟨4, (9, 9), 6, 6⟩].map (fun u : UserCoin => (u.serial, u.initialLat, u.initialLng)) :=
  save_load_roundtrip (fun _ _ => 0)
    { playerPos := (0, 0),
      caches := [((2, 3),
        { coins := [⟨5, 1, 2⟩], markerPos := (1, 2),
          visible := true, initialCoinCount := 1 })],
      userCoins := [⟨4, (9, 9), 6, 6⟩], statusPanel := "x" }
    (2, 3)
    { coins := [⟨5, 1, 2⟩], markerPos := (1, 2),
      visible := true, initialCoinCount := 1 }
    (by with_unfolding_all decide) (by with_unfolding_all decide)

/-- Effect of a confirmed reset on one cache and on the inventory: the pool
is rebuilt from `initialCoinCount`, visibility is recomputed around the
spawn point, and the inventory is emptied. -/
theorem mapGet_reset (dist : (Rat × Rat) → (Rat × Rat) → Rat)
    (s : GameState) (k : Int × Int) (c : Geocache)
    (hc : mapGet s.caches k = some c) :
    mapGet (resetGameState dist (some "yes") s).caches k
      = some (setVisibility dist OAKES_CLASSROOM 40 (resetCache c))
    ∧ (resetGameState dist (some "yes") s).userCoins = [] := by
  have hguard : strLower "yes" = "yes" := by decide
  constructor
  · simp only [resetGameState, Option.map_some', hguard, if_pos,
      updateVisibleCaches]
    rw [mapGet_mapVal, mapGet_mapVal, hc]
    rfl
  · simp [resetGameState, hguard]

/-- C7 (amended): After resetGameState confirms, every cache in the store has
its coin pool rebuilt to exactly `initialCoinCount` coins — the count
recorded when the cache object was constructed, which equals the originally
generated token count only when no load intervened — with serials
`0..initialCoinCount-1` and origins equal to the cache's marker anchor, and
the player's inventory is emptied, regardless of any prior sequence of
collect and deposit operations. -/
theorem reset_restores_recorded_count (dist : (Rat × Rat) → (Rat × Rat) → Rat)
    (s : GameState) (k : Int × Int) (c : Geocache)
    (hc : mapGet s.caches k = some c) :
    ∃ c', mapGet (resetGameState dist (some "yes") s).caches k = some c'
      ∧ c'.coins = (List.range c.initialCoinCount.toNat).map
          (fun (idx : Nat) => ⟨(idx : Int), c.markerPos.1, c.markerPos.2⟩)
      ∧ (resetGameState dist (some "yes") s).userCoins = [] := by
  obtain ⟨h1, h2⟩ := mapGet_reset dist s k c hc
  exact ⟨_, h1, by simp [setVisibility, resetCache], h2⟩

/-- Witness for the amended C7: a cache recorded with `initialCoinCount = 2`
but a currently emptied pool is rebuilt to serials 0 and 1 at its anchor,
and the inventory (one coin) is emptied. -/
theorem reset_restores_recorded_count_witness :
    ∃ c', mapGet (resetGameState (fun _ _ => 0) (some "yes")
        { playerPos := (0, 0),
          caches := [((2, 3),
            { coins := [], markerPos := (1, 2),
              visible := true, initialCoinCount := 2 })],
          userCoins := [⟨4, (9, 9), 6, 6⟩], statusPanel := "x" }).caches (2, 3)
        = some c'
      ∧ c'.coins = (List.range (Int.toNat 2)).map
          (fun (idx : Nat) => ⟨(idx : Int), 1, 2⟩)
      ∧ (resetGameState (fun _ _ => 0) (some "yes")
          { playerPos := (0, 0),
            caches := [((2, 3),
              { coins := [], markerPos := (1, 2),
                visible := true, initialCoinCount := 2 })],
            userCoins := [⟨4, (9, 9), 6, 6⟩], statusPanel := "x" }).userCoins = [] :=
  reset_restores_recorded_count (fun _ _ => 0)
    { playerPos := (0, 0),
      caches := [((2, 3),
        { coins := [], markerPos := (1, 2),
          visible := true, initialCoinCount := 2 })],
      userCoins := [⟨4, (9, 9), 6, 6⟩], statusPanel := "x" }
    (2, 3)
    { coins := [], markerPos := (1, 2), visible := true, initialCoinCount := 2 }
    (by with_unfolding_all decide)

/-- Luck used by the C7 counterexample: the spawn draw for cell (0,0) is 0.05
and the salted count draw is 0.01, so the cache is generated with
`⌊0.01 * 100⌋ + 1 = 2` coins. -/
def c7Luck : String → Rat := fun key => if key = "0,0" then 1 / 20 else 1 / 100

/-- Distance metric for the C7 counterexample: everything is within radius. -/
def c7Dist : (Rat × Rat) → (Rat × Rat) → Rat := fun _ _ => 0

/-- The C7 counterexample run before the reset: generate the cache at (0,0)
with 2 coins, collect one, recompute visibility, save, and load. -/
def c7Loaded : GameState :=
  loadGameState c7Dist
    (some (saveGameState (updateVisibleCaches c7Dist (0, 0) 40
      (addCoins 0 0 0 0
        (generateCaches c7Luck (0, 0) 0 TILE_DEGREES initialState)))))
    (updateVisibleCaches c7Dist (0, 0) 40
      (addCoins 0 0 0 0
        (generateCaches c7Luck (0, 0) 0 TILE_DEGREES initialState)))

/-- Counterexample to C7 as stated: the cache at (0,0) is generated with 2
coins (its original token count), one coin is collected, the game is saved
and loaded, and then a confirmed reset restores the pool to only 1 coin —
not the original count of 2 — because loading re-derived `initialCoinCount`
from the saved pool. -/
theorem reset_after_load_loses_original_count :
    (mapGet (generateCaches c7Luck (0, 0) 0 TILE_DEGREES initialState).caches
        (0, 0)).map (fun c => c.coins.length) = some 2
    ∧ (mapGet (resetGameState c7Dist (some "yes") c7Loaded).caches
        (0, 0)).map (fun c => c.coins.length) = some 1 := by
  constructor
  · with_unfolding_all decide
  · with_unfolding_all decide

/-- C10: loadGameState rebuilds each cache through the Geocache constructor,
so its `initialCoinCount` equals the length of the restored pool (not the
token count drawn at generation); consequently a reset performed after a
save-and-load restores a previously visible cache's pool to its size at the
last save. -/
theorem load_constructor_initialCoinCount :
    (∀ (dist : (Rat × Rat) → (Rat × Rat) → Rat) (blob : SaveBlob)
        (s : GameState) (k : Int × Int) (c' : Geocache),
        mapGet (loadGameState dist (some blob) s).caches k = some c' →
        c'.initialCoinCount = (c'.coins.length : Int))
    ∧ ∀ (dist : (Rat × Rat) → (Rat × Rat) → Rat) (s : GameState)
        (k : Int × Int) (c : Geocache),
        mapGet s.caches k = some c → c.visible = true →
        ∃ c'', mapGet (resetGameState dist (some "yes")
            (loadGameState dist (some (saveGameState s)) s)).caches k = some c''
          ∧ c''.coins.length = c.coins.length := by
  constructor
  · intro dist blob s k c' h
    simp only [loadGameState, updateVisibleCaches] at h
    rw [mapGet_mapVal, mapGet_mapVal] at h
    cases hb : mapGet blob.caches k with
    | none => rw [hb] at h; simp at h
    | some st =>
      rw [hb] at h
      simp only [Option.map_some', Option.some.injEq] at h
      subst h
      simp [setVisibility, geocacheOfState]
  · intro dist s k c hc hv
    have hload := mapGet_load_save dist s k c hc hv
    obtain ⟨h1, _⟩ := mapGet_reset dist
      (loadGameState dist (some (saveGameState s)) s) k
      (setVisibility dist s.playerPos 40 (geocacheOfState ⟨c.coins, c.markerPos⟩))
      hload
    refine ⟨_, h1, ?_⟩
    simp only [resetCache, setVisibility, geocacheOfState, List.length_map,
      List.length_range, Int.toNat_natCast]

/-- Witness for C10: on a concrete state whose visible cache holds one coin
but records `initialCoinCount = 9`, reset after save-and-load restores a
one-coin pool (the size at the save), not nine. -/
theorem load_constructor_initialCoinCount_witness :
    ∃ c'', mapGet (resetGameState (fun _ _ => 0) (some "yes")
        (loadGameState (fun _ _ => 0)
          (some (saveGameState
            { playerPos := (0, 0),
              caches := [((2, 3),
                { coins := [⟨5, 1, 2⟩], markerPos := (1, 2),
                  visible := true, initialCoinCount := 9 })],
              userCoins := [], statusPanel := "x" }))
          { playerPos := (0, 0),
            caches := [((2, 3),
              { coins := [⟨5, 1, 2⟩], markerPos := (1, 2),
                visible := true, initialCoinCount := 9 })],
            userCoins := [], statusPanel := "x" })).caches (2, 3) = some c''
      ∧ c''.coins.length = ([⟨5, 1, 2⟩] : List Coin).length :=
  load_constructor_initialCoinCount.2 (fun _ _ => 0)
    { playerPos := (0, 0),
      caches := [((2, 3),
        { coins := [⟨5, 1, 2⟩], markerPos := (1, 2),
          visible := true, initialCoinCount := 9 })],
      userCoins := [], statusPanel := "x" }
    (2, 3)
    { coins := [⟨5, 1, 2⟩], markerPos := (1, 2),
      visible := true, initialCoinCount := 9 }
    (by with_unfolding_all decide) (by with_unfolding_all decide)

/-! ### C8: determinism of world generation -/

/-- Cell reached from a base coordinate by an integer displacement `mn`
measured in tiles: since moves shift the player by whole tiles, the floor of
the shifted coordinate is the floor of the base plus the displacement. -/
def cellAt (base : Rat × Rat) (mn : Int × Int) : Int × Int :=
  (⌊base.1 / TILE_DEGREES⌋ + mn.1, ⌊base.2 / TILE_DEGREES⌋ + mn.2)

/-- Shifting by a whole number of tiles shifts the floored cell index. -/
theorem floor_add_mul_tile (q : Rat) (m : Int) :
    ⌊(q + m * TILE_DEGREES) / TILE_DEGREES⌋ = ⌊q / TILE_DEGREES⌋ + m := by
  have h : (q + m * TILE_DEGREES) / TILE_DEGREES = q / TILE_DEGREES + m := by
    rw [add_div, mul_div_assoc, div_self (by norm_num [TILE_DEGREES]), mul_one]
  rw [h, Int.floor_add_int]

theorem getCell_cellAt (base : Rat × Rat) (mn : Int × Int) :
    Cell.getCell (base.1 + mn.1 * TILE_DEGREES) (base.2 + mn.2 * TILE_DEGREES)
      = cellAt base mn := by
  simp [Cell.getCell, cellAt, floor_add_mul_tile]

/-- The cache a spawned cell at displacement `mn` holds: anchored at the
shifted coordinate, with the count drawn from the salted key there. -/
def canonCache (luck : String → Rat) (base : Rat × Rat) (mn : Int × Int) :
    Geocache :=
  { coins := (List.range (⌊luck (saltedKey (base.1 + mn.1 * TILE_DEGREES)
        (base.2 + mn.2 * TILE_DEGREES)) * 100⌋ + 1).toNat).map
      (fun (k : Nat) => ⟨(k : Int), base.1 + mn.1 * TILE_DEGREES,
        base.2 + mn.2 * TILE_DEGREES⟩),
    markerPos := (base.1 + mn.1 * TILE_DEGREES, base.2 + mn.2 * TILE_DEGREES),
    visible := false,
    initialCoinCount := ⌊luck (saltedKey (base.1 + mn.1 * TILE_DEGREES)
      (base.2 + mn.2 * TILE_DEGREES)) * 100⌋ + 1 }

/-- Canonical cache-store contents after generating over a set of
displacements `P`: a cell holds a cache iff it was processed and its spawn
draw succeeded, and then it holds exactly the canonical cache. -/
def spawnedAt (luck : String → Rat) (base : Rat × Rat) (P : Int × Int → Bool)
    (k : Int × Int) : Option Geocache :=
  let mn := (k.1 - ⌊base.1 / TILE_DEGREES⌋, k.2 - ⌊base.2 / TILE_DEGREES⌋)
  if P mn ∧ luck (posKey k.1 k.2) < CACHE_SPAWN_PROBABILITY
  then some (canonCache luck base mn) else none

theorem spawnedAt_ext (luck : String → Rat) (base : Rat × Rat)
    (P Q : Int × Int → Bool) (h : ∀ mn, P mn = Q mn) (k : Int × Int) :
    spawnedAt luck base P k = spawnedAt luck base Q k := by
  simp only [spawnedAt, h]

/-- Evaluation of `spawnedAt` at the cell of displacement `mn`. -/
theorem spawnedAt_cellAt (luck : String → Rat) (base : Rat × Rat)
    (P : Int × Int → Bool) (mn : Int × Int) :
    spawnedAt luck base P (cellAt base mn)
      = if P mn ∧ luck (posKey (cellAt base mn).1 (cellAt base mn).2)
            < CACHE_SPAWN_PROBABILITY
        then some (canonCache luck base mn) else none := by
  simp [spawnedAt, cellAt, add_sub_cancel_left]

/-- Two keys agreeing on their displacement predicate get the same value. -/
theorem spawnedAt_congr_at (luck : String → Rat) (base : Rat × Rat)
    (P Q : Int × Int → Bool) (k : Int × Int)
    (h : P (k.1 - ⌊base.1 / TILE_DEGREES⌋, k.2 - ⌊base.2 / TILE_DEGREES⌋)
       = Q (k.1 - ⌊base.1 / TILE_DEGREES⌋, k.2 - ⌊base.2 / TILE_DEGREES⌋)) :
    spawnedAt luck base P k = spawnedAt luck base Q k := by
  simp only [spawnedAt, h]

/-- One generation step preserves the canonical characterisation, extending
the processed set by the step's displacement. -/
theorem genStep_spawnedAt (luck : String → Rat) (base : Rat × Rat)
    (s : GameState) (P : Int × Int → Bool) (mn0 : Int × Int)
    (hs : ∀ k, mapGet s.caches k = spawnedAt luck base P k) :
    ∀ k, mapGet (genStep luck base TILE_DEGREES s mn0).caches k
      = spawnedAt luck base (fun mn => P mn || decide (mn = mn0)) k := by
  have hne : ∀ k' : Int × Int, k' ≠ cellAt base mn0 →
      decide ((k'.1 - ⌊base.1 / TILE_DEGREES⌋,
               k'.2 - ⌊base.2 / TILE_DEGREES⌋) = mn0) = false := by
    intro k' hk
    refine decide_eq_false (fun h => hk ?_)
    have h1 : k'.1 - ⌊base.1 / TILE_DEGREES⌋ = mn0.1 := by
      rw [← h]
    have h2 : k'.2 - ⌊base.2 / TILE_DEGREES⌋ = mn0.2 := by
      rw [← h]
    have : k'.1 = (cellAt base mn0).1 ∧ k'.2 = (cellAt base mn0).2 := by
      simp only [cellAt]
      omega
    exact Prod.ext this.1 this.2
  by_cases hP : P mn0 = true
  · have hPP : ∀ mn, (P mn || decide (mn = mn0)) = P mn := by
      intro mn
      by_cases h : mn = mn0
      · simp [h, hP]
      · simp [h]
    have hid : genStep luck base TILE_DEGREES s mn0 = s := by
      by_cases hl : luck (posKey (cellAt base mn0).1 (cellAt base mn0).2)
          < CACHE_SPAWN_PROBABILITY
      · have hsome : mapGet s.caches (cellAt base mn0)
            = some (canonCache luck base mn0) := by
          rw [hs (cellAt base mn0), spawnedAt_cellAt]
          simp [hP, hl]
        simp [genStep, getCell_cellAt, hsome]
      · have hnone : mapGet s.caches (cellAt base mn0) = none := by
          rw [hs (cellAt base mn0), spawnedAt_cellAt]
          simp [hl]
        simp [genStep, getCell_cellAt, hnone, hl]
    intro k'
    rw [hid, hs k']
    exact (spawnedAt_ext luck base _ _ hPP k').symm
  · have hPf : P mn0 = false := by
      revert hP
      cases P mn0 <;> simp
    have hpres : mapGet s.caches (cellAt base mn0) = none := by
      rw [hs (cellAt base mn0), spawnedAt_cellAt]
      simp [hPf]
    by_cases hl : luck (posKey (cellAt base mn0).1 (cellAt base mn0).2)
        < CACHE_SPAWN_PROBABILITY
    · have hgen : (genStep luck base TILE_DEGREES s mn0).caches
          = mapSet s.caches (cellAt base mn0) (canonCache luck base mn0) := by
        simp [genStep, getCell_cellAt, hpres, hl, canonCache]
      intro k'
      rw [hgen]
      by_cases hk : k' = cellAt base mn0
      · subst hk
        rw [mapGet_mapSet_self, spawnedAt_cellAt]
        simp [hl]
      · rw [mapGet_mapSet_ne _ _ _ _ hk, hs k']
        apply spawnedAt_congr_at
        rw [hne k' hk]
        simp
    · have hgen : genStep luck base TILE_DEGREES s mn0 = s := by
        simp [genStep, getCell_cellAt, hpres, hl]
      intro k'
      rw [hgen, hs k']
      by_cases hk : k' = cellAt base mn0
      · subst hk
        rw [spawnedAt_cellAt, spawnedAt_cellAt]
        simp [hl]
      · apply spawnedAt_congr_at
        rw [hne k' hk]
        simp

/-- Folding the generation step over any list of displacements yields exactly
the canonical store over the enlarged processed set. -/
theorem foldl_genStep_spawnedAt (luck : String → Rat) (base : Rat × Rat)
    (l : List (Int × Int)) (s : GameState) (P : Int × Int → Bool)
    (hs : ∀ k, mapGet s.caches k = spawnedAt luck base P k) :
    ∀ k, mapGet (l.foldl (genStep luck base TILE_DEGREES) s).caches k
      = spawnedAt luck base (fun mn => P mn || decide (mn ∈ l)) k := by
  induction l generalizing s P with
  | nil =>
    intro k
    rw [List.foldl_nil, hs k]
    apply spawnedAt_ext
    intro mn
    simp
  | cons mn0 rest ih =>
    intro k
    rw [List.foldl_cons]
    have hstep := genStep_spawnedAt luck base s P mn0 hs
    have := ih (genStep luck base TILE_DEGREES s mn0)
      (fun mn => P mn || decide (mn = mn0)) hstep k
    rw [this]
    apply spawnedAt_ext
    intro mn
    simp [List.mem_cons, Bool.or_assoc]

/-- Congruence for folds of pointwise-equal step functions. -/
theorem foldl_fn_congr {α β : Type} (l : List β) (f g : α → β → α) (s : α)
    (h : ∀ a x, f a x = g a x) : l.foldl f s = l.foldl g s := by
  have hfg : f = g := funext fun a => funext fun x => h a x
  rw [hfg]

/-- A generation step at a tile-shifted center is a step at the base center
with a shifted displacement. -/
theorem genStep_shift (luck : String → Rat) (base : Rat × Rat)
    (a b x y : Int) (s : GameState) :
    genStep luck (base.1 + a * TILE_DEGREES, base.2 + b * TILE_DEGREES)
        TILE_DEGREES s (x, y)
      = genStep luck base TILE_DEGREES s (a + x, b + y) := by
  have h1 : base.1 + (a : Rat) * TILE_DEGREES + (x : Rat) * TILE_DEGREES
      = base.1 + ((a + x : Int) : Rat) * TILE_DEGREES := by
    push_cast
    ring
  have h2 : base.2 + (b : Rat) * TILE_DEGREES + (y : Rat) * TILE_DEGREES
      = base.2 + ((b + y : Int) : Rat) * TILE_DEGREES := by
    push_cast
    ring
  simp only [genStep, h1, h2]

/-- The absolute cells processed by one generateCaches call at the center
displaced by `ab` tiles from the base. -/
def shiftCells (n : Nat) (ab : Int × Int) : List (Int × Int) :=
  (offsets n).map (fun xy => (ab.1 + xy.1, ab.2 + xy.2))

/-- One generateCaches call at a tile-shifted center is a fold of base-center
steps over the shifted displacement list. -/
theorem generateCaches_as_cells (luck : String → Rat) (base : Rat × Rat)
    (n : Nat) (ab : Int × Int) (s : GameState) :
    generateCaches luck (base.1 + ab.1 * TILE_DEGREES, base.2 + ab.2 * TILE_DEGREES)
        n TILE_DEGREES s
      = (shiftCells n ab).foldl (genStep luck base TILE_DEGREES) s := by
  unfold generateCaches shiftCells
  rw [List.foldl_map]
  apply foldl_fn_congr
  intro st xy
  obtain ⟨x, y⟩ := xy
  exact genStep_shift luck base ab.1 ab.2 x y st

/-- A whole path of moves is a fold of base-center steps over the
concatenation of the windows it visits. -/
theorem runMoves_as_cells (luck : String → Rat) (base : Rat × Rat) (n : Nat)
    (moves : List (Int × Int)) (s : GameState) :
    runMoves luck base n moves s
      = (moves.flatMap (shiftCells n)).foldl (genStep luck base TILE_DEGREES) s := by
  induction moves generalizing s with
  | nil => rfl
  | cons ab rest ih =>
    simp only [runMoves, List.foldl_cons, List.flatMap_cons, List.foldl_append]
    rw [generateCaches_as_cells]
    exact ih _

/-- The empty store is canonical for the empty processed set. -/
theorem initialState_spawnedAt (luck : String → Rat) (base : Rat × Rat) :
    ∀ k, mapGet initialState.caches k
      = spawnedAt luck base (fun _ => false) k := by
  intro k
  simp [initialState, mapGet, spawnedAt]

/-- C8: For the fixed tile size and spawn probability, given the same
deterministic luck function, the cache store produced by a path of player
moves is a function only of the set of positions visited: which caches exist,
their anchors and their initial token counts are identical for any two paths
visiting the same positions, regardless of order or repetition. -/
theorem generation_path_independent (luck : String → Rat) (base : Rat × Rat)
    (n : Nat) (moves1 moves2 : List (Int × Int))
    (hmem : ∀ ab : Int × Int, ab ∈ moves1 ↔ ab ∈ moves2) (k : Int × Int) :
    mapGet (runMoves luck base n moves1 initialState).caches k
      = mapGet (runMoves luck base n moves2 initialState).caches k := by
  rw [runMoves_as_cells, runMoves_as_cells,
    foldl_genStep_spawnedAt luck base _ initialState _
      (initialState_spawnedAt luck base) k,
    foldl_genStep_spawnedAt luck base _ initialState _
      (initialState_spawnedAt luck base) k]
  apply spawnedAt_ext
  intro mn
  simp only [Bool.false_or]
  rw [decide_eq_decide]
  simp only [List.mem_flatMap]
  constructor
  · rintro ⟨ab, hab, hmn⟩
    exact ⟨ab, (hmem ab).mp hab, hmn⟩
  · rintro ⟨ab, hab, hmn⟩
    exact ⟨ab, (hmem ab).mpr hab, hmn⟩

/-- Witness for C8: two paths visiting positions (0,0) and (1,0) in opposite
orders (one revisiting (0,0)) produce the same cache-store entry at the
origin cell. -/
theorem generation_path_independent_witness :
    mapGet (runMoves (fun _ => 0) (0, 0) 0 [(0, 0), (1, 0)] initialState).caches
        (0, 0)
      = mapGet (runMoves (fun _ => 0) (0, 0) 0 [(1, 0), (0, 0), (0, 0)]
          initialState).caches (0, 0) :=
  generation_path_independent (fun _ => 0) (0, 0) 0 [(0, 0), (1, 0)]
    [(1, 0), (0, 0), (0, 0)]
    (by
      intro ab
      simp only [List.mem_cons, List.not_mem_nil, or_false]
      tauto)
    (0, 0)
